import Mathlib

/-!
Verification development for the table-specification compiler in
`flask_migrate/table.py` (classes `ColumnSpec`, `IndexSpec`, `TableSpec`,
`TableBuilder`).

The Python classes are shallowly embedded: JSON-backed dicts become
association lists `List (String × α)` with Python-dict semantics
(assignment replaces in place or appends, `del` removes, `in` tests keys);
the two derived sorted views `self.column` / `self.index`, which the source
recomputes from `sorted(keys)` after every mutation, are represented as the
derived functions `columnView` / `indexView`; mutating methods return the
state reached when the method finishes or raises, paired with an optional
error, so that partial mutation before an exception is observable, exactly
as it is on the Python object.  Regular-expression checks over ASCII
identifiers and digits are translated to explicit character predicates
(`re`'s `\d` is modelled as ASCII digits and `str.strip` as trimming ASCII
whitespace; the inputs of interest are ASCII).
-/

set_option maxRecDepth 8192

namespace FlaskMigrate

/-! ### Python dict operations on association lists -/

/-- Lookup in a Python dict: `d[k]` / `d.get(k)`. -/
def dictGet? (k : String) : List (String × α) → Option α
  | [] => none
  | (k', v) :: rest => if k' = k then some v else dictGet? k rest

/-- Key membership in a Python dict: `k in d`. -/
def dictMem (k : String) (m : List (String × α)) : Bool :=
  (dictGet? k m).isSome

/-- Python dict assignment `d[k] = v`: replaces the entry in place when the
key is present, appends a new entry otherwise. -/
def dictSet (m : List (String × α)) (k : String) (v : α) : List (String × α) :=
  if dictMem k m then m.map (fun p => if p.1 = k then (k, v) else p)
  else m ++ [(k, v)]

/-- Python dict deletion `del d[k]`. -/
def dictDel (m : List (String × α)) (k : String) : List (String × α) :=
  m.filter (fun p => p.1 ≠ k)

/-- The keys of a dict, in insertion order. -/
def keysOf (m : List (String × α)) : List String :=
  m.map Prod.fst

/-- Lexicographic comparison of code-point sequences, the order Python's
`sorted` uses on `str` (spelled out so it computes by kernel reduction). -/
def charsLe : List Char → List Char → Bool
  | [], _ => true
  | _ :: _, [] => false
  | a :: as, b :: bs =>
    if a < b then true
    else if b < a then false
    else charsLe as bs

/-- String comparison by code points. -/
def strLe (a b : String) : Bool := charsLe a.data b.data

/-- `strLe` as a relation, for the sorting lemmas. -/
def strLeRel (a b : String) : Prop := strLe a b = true

instance : DecidableRel strLeRel := fun a b => by
  unfold strLeRel; exact inferInstance

instance : IsTotal String strLeRel := by
  constructor
  have key : ∀ x y : List Char, charsLe x y = true ∨ charsLe y x = true := by
    intro x
    induction x with
    | nil => intro y; left; rfl
    | cons a as ih =>
      intro y
      cases y with
      | nil => right; rfl
      | cons b bs =>
        by_cases hab : a < b
        · left; simp [charsLe, hab]
        · by_cases hba : b < a
          · right; simp [charsLe, hba]
          · rcases ih bs with h | h
            · left; simp [charsLe, hab, hba, h]
            · right; simp [charsLe, hba, hab, h]
  intro a b
  exact key a.data b.data

instance : IsTrans String strLeRel := by
  constructor
  have key : ∀ x y z : List Char,
      charsLe x y = true → charsLe y z = true → charsLe x z = true := by
    intro x
    induction x with
    | nil => intro y z h1 h2; rfl
    | cons a as ih =>
      intro y z h1 h2
      cases y with
      | nil => simp [charsLe] at h1
      | cons b bs =>
        cases z with
        | nil => simp [charsLe] at h2
        | cons c cs =>
          by_cases hab : a < b
          · by_cases hbc : b < c
            · simp [charsLe, lt_trans hab hbc]
            · by_cases hcb : c < b
              · simp [charsLe, hbc, hcb] at h2
              · have hb : b = c := le_antisymm (not_lt.mp hcb) (not_lt.mp hbc)
                subst hb
                simp [charsLe, hab]
          · by_cases hba : b < a
            · simp [charsLe, hab, hba] at h1
            · have ha : a = b := le_antisymm (not_lt.mp hba) (not_lt.mp hab)
              subst ha
              by_cases hac : a < c
              · simp [charsLe, hac]
              · by_cases hca : c < a
                · simp [charsLe, hac, hca] at h2
                · have hc : a = c := le_antisymm (not_lt.mp hca) (not_lt.mp hac)
                  subst hc
                  simp [charsLe, lt_irrefl] at h1 h2 ⊢
                  exact ih _ _ h1 h2
  intro a b c
  exact key a.data b.data c.data

instance : IsAntisymm String strLeRel := by
  constructor
  have key : ∀ x y : List Char, charsLe x y = true → charsLe y x = true → x = y := by
    intro x
    induction x with
    | nil =>
      intro y h1 h2
      cases y with
      | nil => rfl
      | cons b bs => simp [charsLe] at h2
    | cons a as ih =>
      intro y h1 h2
      cases y with
      | nil => simp [charsLe] at h1
      | cons b bs =>
        by_cases hab : a < b
        · simp [charsLe, hab, asymm hab] at h2
        · by_cases hba : b < a
          · simp [charsLe, hab, hba] at h1
          · have ha : a = b := le_antisymm (not_lt.mp hba) (not_lt.mp hab)
            subst ha
            simp [charsLe, lt_irrefl] at h1 h2
            rw [ih bs h1 h2]
  intro a b h1 h2
  exact congrArg String.mk (key a.data b.data h1 h2)

/-- Python `sorted` on a list of strings (lexicographic by code point). -/
def sortStr (l : List String) : List String :=
  l.insertionSort strLeRel

instance [DecidableEq ε] [DecidableEq α] : DecidableEq (Except ε α) := fun a b =>
  match a, b with
  | .error x, .error y =>
    if h : x = y then .isTrue (by rw [h])
    else .isFalse (fun hc => h (Except.error.inj hc))
  | .error _, .ok _ => .isFalse (fun hc => Except.noConfusion hc)
  | .ok _, .error _ => .isFalse (fun hc => Except.noConfusion hc)
  | .ok x, .ok y =>
    if h : x = y then .isTrue (by rw [h])
    else .isFalse (fun hc => h (Except.ok.inj hc))

/-- The `for k in sorted(d.keys()): out.append(d[k])` pattern used by the
source to recompute its sorted views after every mutation. -/
def sortedView (m : List (String × α)) : List α :=
  (sortStr (keysOf m)).filterMap (fun k => dictGet? k m)

/-! ### Data model -/

/-- The engine targets accepted by the compiler. -/
inductive Engine
  | mysql
  | postgresql
  | sqlite
deriving DecidableEq

/-- The SQLAlchemy column types produced by `ColumnSpec.build_column`:
`satypes.*`, `mysql.LONGTEXT` / `mysql.LONGBLOB`, `postgresql.BYTEA` /
`postgresql.UUID`. -/
inductive SqlType
  | text
  | longtext
  | varchar (n : Nat)
  | blob
  | longblob
  | bytea
  | varbinary (n : Nat)
  | integer
  | bigInteger
  | float
  | numeric (p s : Nat)
  | boolean
  | date
  | dateTime
  | json
  | uuid
deriving DecidableEq

/-- A server-side default clause: `text('NULL')` or a literal value. -/
inductive ServerDefault
  | nullLiteral
  | value (v : String)
deriving DecidableEq

/-- A compiled SQLAlchemy `Column(...)`. -/
structure Column where
  name : String
  sqltype : SqlType
  nullable : Bool
  server_default : Option ServerDefault := none
  primary_key : Bool := false
deriving DecidableEq

/-- A JSON scalar used for an index column's `size` field: the source can
hold either a number (from a loaded file) or a digit string (as produced by
`check_index_columns`, which stores the regex capture group). -/
inductive JSize
  | num (n : Nat)
  | str (s : String)
deriving DecidableEq

/-- Rendering of a size by Python's `'{}'.format(...)`. -/
def JSize.render : JSize → String
  | .num n => toString n
  | .str s => s

/-- One element of an index's `columns` list: `{'column': ..., 'size': ...}`. -/
structure ColRef where
  column : String
  size : Option JSize := none
deriving DecidableEq

/-- A compiled SQLAlchemy `Index(name, *cols, unique=...)`. -/
structure IndexDef where
  name : String
  exprs : List String
  unique : Bool
deriving DecidableEq

/-- The raw column dict as stored in `TableSpec.column_key` and in the JSON
file.  `name`, `type` and `nullable` are the fields every produced file
carries; the remaining fields are optional dict keys (`none` models the key
being absent, in which case a Python attribute access raises). -/
structure ColRec where
  name : String
  type : String
  length : Option String := none
  length_specify : Option Nat := none
  nullable : Bool := true
  default : Option String := none
  default_value : Option String := none
  indexes : Option (List String) := none
deriving DecidableEq

/-- The raw index dict as stored in `TableSpec.index_key`. -/
structure IxRec where
  name : String
  type : String
  columns : List ColRef
deriving DecidableEq

/-- The JSON document `{table, column: [...], index: [...]}` handled by
`to_json` / `from_json` / the spec files on disk. -/
structure Doc where
  table : String
  column : List ColRec
  index : List IxRec
deriving DecidableEq

/-- The mutable state of a `TableSpec` object: the two keyed dicts.  The
sorted list views `self.column` / `self.index` are recomputed by the source
from the dict keys after every mutation, so they are modelled as the
derived functions `columnView` / `indexView` below. -/
structure TableState where
  table : String
  column_key : List (String × ColRec)
  index_key : List (String × IxRec)
deriving DecidableEq

/-- The derived sorted column view `self.column`. -/
def columnView (t : TableState) : List ColRec :=
  sortedView t.column_key

/-- The derived sorted index view `self.index`. -/
def indexView (t : TableState) : List IxRec :=
  sortedView t.index_key

/-- Errors raised by the source (`raise Exception(...)` messages, plus the
raw `KeyError` / `AttributeError` Python raises on a missing dict key or
object attribute). -/
inductive Err
  | invalidType (t : String)
  | typeNotFound (t : String)
  | duplicateColumn (n : String)
  | invalidColumnName (n : String)
  | unknownColumn (n : String)
  | invalidIndexColumn (s : String)
  | indexColumnNotFound (n : String)
  | duplicateIndex (n : String)
  | unknownIndex (n : String)
  | keyError (k : String)
  | attributeError (a : String)
deriving DecidableEq

/-- `ColumnSpec.TYPES`. -/
def TYPES : List String :=
  ["string", "binary", "integer", "float", "currency", "boolean",
   "record", "date", "datetime", "json", "uuid"]

/-! ### ColumnSpec -/

/-- `ColumnSpec.__init__`: copies the spec dict onto the object and rejects
a type outside `TYPES`. -/
def ColumnSpec.mk? (c : ColRec) : Except Err ColRec :=
  if TYPES.contains c.type then .ok c else .error (.invalidType c.type)

/-- The if/elif chain of `ColumnSpec.build_column` that computes `sqltype`
(possibly leaving it `None`). -/
def ColumnSpec.buildSqlType (c : ColRec) (engine : Engine) : Except Err (Option SqlType) :=
  if c.type = "string" then
      match c.length with
      | none => .error (.attributeError "length")
      | some l =>
        if l = "default" then .ok (some .text)
        else if l = "long" then
          if engine = .mysql then .ok (some .longtext) else .ok (some .text)
        else if l = "specify" then
          match c.length_specify with
          | some n => .ok (some (.varchar n))
          | none => .error (.attributeError "length_specify")
        else .ok none
    else if c.type = "binary" then
      match c.length with
      | none => .error (.attributeError "length")
      | some l =>
        if l = "default" then
          if engine = .postgresql then .ok (some .bytea) else .ok (some .blob)
        else if l = "long" then
          if engine = .mysql then .ok (some .longblob)
          else if engine = .postgresql then .ok (some .bytea)
          else if engine = .sqlite then .ok (some .blob)
          else .ok none
        else if l = "specify" then
          if engine = .postgresql then .ok (some .bytea)
          else
            match c.length_specify with
            | some n => .ok (some (.varbinary n))
            | none => .error (.attributeError "length_specify")
        else .ok none
    else if c.type = "integer" then
      if engine = .sqlite then .ok (some .integer) else .ok (some .bigInteger)
    else if c.type = "float" then .ok (some .float)
    else if c.type = "currency" then .ok (some (.numeric 20 2))
    else if c.type = "boolean" then .ok (some .boolean)
    else if c.type = "record" then
      if engine = .sqlite then .ok (some .integer) else .ok (some .bigInteger)
    else if c.type = "date" then .ok (some .date)
    else if c.type = "datetime" then .ok (some .dateTime)
    else if c.type = "json" then .ok (some .json)
    else if c.type = "uuid" then
      if engine = .postgresql then .ok (some .uuid) else .ok (some (.varbinary 16))
    else .error (.invalidType c.type)

/-- `ColumnSpec.build_column(engine)`: the `sqltype` dispatch, the
`is None` check, then the `nullable` / `server_default` keyword arguments
and the `Column(...)` construction. -/
def ColumnSpec.build_column (c : ColRec) (engine : Engine) : Except Err Column :=
  match ColumnSpec.buildSqlType c engine with
  | .error e => .error e
  | .ok none => .error (.typeNotFound c.type)
  | .ok (some st) =>
    match c.default with
    | none => .error (.attributeError "default")
    | some d =>
      if d = "null" then
        .ok { name := c.name, sqltype := st, nullable := c.nullable,
              server_default := some .nullLiteral }
      else if d = "specify" then
        match c.default_value with
        | none => .error (.attributeError "default_value")
        | some v =>
          .ok { name := c.name, sqltype := st, nullable := c.nullable,
                server_default := some (.value v) }
      else
        .ok { name := c.name, sqltype := st, nullable := c.nullable,
              server_default := none }

/-! ### The section 4.1 mapping table, written from the spec's words -/

/-- Modelled from the spec: the type-to-engine-type mapping table of
section 4.1, row by row (`none` when the (type, length, engine) cell is not
resolvable).  "text" / "long-text" / "varchar(N)" / "blob" / "byte-array" /
"long-blob" / "varbinary(N)" / "64-bit integer" / "native integer" /
"floating point" / "fixed-point numeric(20,2)" / "boolean" / "date" /
"timestamp" / "json" / "16-byte binary" / "native UUID" are read as the
corresponding `SqlType` constructors. -/
def specEngineType (ty : String) (len : Option String) (lenSpec : Option Nat)
    (e : Engine) : Option SqlType :=
  if ty = "string" then
    if len = some "default" then some .text
    else if len = some "long" then
      some (match e with | .mysql => .longtext | _ => .text)
    else if len = some "specify" then lenSpec.map (fun n => .varchar n)
    else none
  else if ty = "binary" then
    if len = some "default" then
      some (match e with | .postgresql => .bytea | _ => .blob)
    else if len = some "long" then
      some (match e with
            | .mysql => .longblob
            | .postgresql => .bytea
            | .sqlite => .blob)
    else if len = some "specify" then
      match e with
      | .postgresql => some .bytea
      | _ => lenSpec.map (fun n => .varbinary n)
    else none
  else if ty = "integer" then
    some (match e with | .sqlite => .integer | _ => .bigInteger)
  else if ty = "record" then
    some (match e with | .sqlite => .integer | _ => .bigInteger)
  else if ty = "float" then some .float
  else if ty = "currency" then some (.numeric 20 2)
  else if ty = "boolean" then some .boolean
  else if ty = "date" then some .date
  else if ty = "datetime" then some .dateTime
  else if ty = "json" then some .json
  else if ty = "uuid" then
    some (match e with | .postgresql => .uuid | _ => .varbinary 16)
  else none

/-! ### IndexSpec -/

/-- `IndexSpec.__init__`: copies the spec dict and rejects a type other
than `'index'` / `'unique'`. -/
def IndexSpec.mk? (i : IxRec) : Except Err IxRec :=
  if i.type = "index" || i.type = "unique" then .ok i else .error (.invalidType i.type)

/-- `IndexSpec.build_index(engine)`: renders each column as `name` or
`name(size)` in declaration order and sets `unique` from the type. -/
def IndexSpec.build_index (i : IxRec) : IndexDef :=
  { name := i.name,
    exprs := i.columns.map (fun c =>
      match c.size with
      | none => c.column
      | some s => c.column ++ "(" ++ s.render ++ ")"),
    unique := i.type == "unique" }

/-! ### Identifier and index-element parsing (the `re` checks) -/

/-- First character of `[a-zA-Z_][a-zA-Z0-9_]*`. -/
def isIdentStart (ch : Char) : Bool := ch.isAlpha || ch = '_'

/-- Later characters of `[a-zA-Z_][a-zA-Z0-9_]*`. -/
def isIdentChar (ch : Char) : Bool := ch.isAlphanum || ch = '_'

/-- Match of the full string against `[a-zA-Z_][a-zA-Z0-9_]*`. -/
def isIdent (s : String) : Bool :=
  match s.data with
  | [] => false
  | ch :: rest => isIdentStart ch && rest.all isIdentChar

/-- `re.search(r'^[a-zA-Z_][a-zA-Z0-9_]*$', s)`: Python's `$` also matches
just before one trailing newline. -/
def regexIdentAnchored (s : String) : Bool :=
  isIdent s ||
    (decide (s.data.getLast? = some '\n') && isIdent (String.mk s.data.dropLast))

/-- `TableSpec.check_column`. -/
def TableSpec.check_column (colname : String) : Except Err Bool :=
  if regexIdentAnchored colname then .ok true
  else .error (.invalidColumnName colname)

/-- The whitespace characters removed by Python's `str.strip()`. -/
def isPyWs (c : Char) : Bool :=
  c = ' ' || c = '\t' || c = '\n' || c = '\r' || c = '\x0b' || c = '\x0c'

/-- Python `str.strip()`. -/
def pyStrip (s : String) : String :=
  String.mk (((s.data.dropWhile isPyWs).reverse.dropWhile isPyWs).reverse)

/-- Splitting a character list at every separator occurrence (so that the
result on an empty input is one empty part, as in Python). -/
def splitCharList (sep : Char) : List Char → List (List Char)
  | [] => [[]]
  | c :: cs =>
    if c = sep then [] :: splitCharList sep cs
    else
      match splitCharList sep cs with
      | [] => [[c]]
      | g :: gs => (c :: g) :: gs

/-- Python `s.split(',')`. -/
def splitComma (s : String) : List String :=
  (splitCharList ',' s.data).map String.mk

/-- Match of `^([a-zA-Z_][a-zA-Z0-9_]*)\((\d+)\)$` returning the two capture
groups; the size group is returned verbatim as a string, exactly as
`m.group(2)` is (both groups match greedily, which maximal-munch scanning
reproduces since `(` is not an identifier character and `)` not a digit). -/
def parseSized (s : String) : Option (String × String) :=
  match s.data with
  | [] => none
  | c :: cs =>
    if isIdentStart c then
      match cs.span isIdentChar with
      | (identRest, '(' :: r2) =>
        match r2.span Char.isDigit with
        | (digits, [')']) =>
          if digits = [] then none
          else some (String.mk (c :: identRest), String.mk digits)
        | _ => none
      | _ => none
    else none

/-- The two-regex dispatch of `check_index_columns` on one stripped
element: bare identifier first, then `identifier(digits)`. -/
def parseIndexElem (s : String) : Option (String × Option String) :=
  if isIdent s then some (s, none)
  else (parseSized s).map (fun p => (p.1, some p.2))

/-! ### Except / step plumbing -/

/-- A Python `for` loop building a result list, aborting at the first
raised exception. -/
def mapExcept (f : α → Except Err β) : List α → Except Err (List β)
  | [] => .ok []
  | a :: as =>
    match f a with
    | .error e => .error e
    | .ok b =>
      match mapExcept f as with
      | .error e => .error e
      | .ok bs => .ok (b :: bs)

/-- A Python `for` loop of mutating steps: stops at the first step that
raises, keeping the state mutated so far. -/
def runSteps (f : TableState → α → Option Err × TableState) :
    TableState → List α → Option Err × TableState
  | t, [] => (none, t)
  | t, a :: as =>
    match f t a with
    | (none, t') => runSteps f t' as
    | (some e, t') => (some e, t')

/-! ### TableSpec operations -/

/-- `TableSpec.add_column`. -/
def TableSpec.add_column (t : TableState) (colspec : ColRec) :
    Option Err × TableState :=
  if dictMem colspec.name t.column_key then
    (some (.duplicateColumn colspec.name), t)
  else
    (none, { t with column_key := dictSet t.column_key colspec.name colspec })

/-- One iteration of the column loop in `TableSpec.remove_index`:
`cs = self.column_key[ix['column']]` (KeyError when absent),
`cs['indexes'] = list(filter(key.__ne__, cs['indexes']))` (KeyError when
the field is absent), dropping the field when the filtered list is empty. -/
def TableSpec.removeIndexStep (key : String) (st : TableState) (cr : ColRef) :
    Option Err × TableState :=
  match dictGet? cr.column st.column_key with
  | none => (some (.keyError cr.column), st)
  | some cs =>
    match cs.indexes with
    | none => (some (.keyError "indexes"), st)
    | some lst =>
      let lst' := lst.filter (fun x => x != key)
      let cs' := { cs with indexes := if lst' = [] then none else some lst' }
      (none, { st with column_key := dictSet st.column_key cr.column cs' })

/-- `TableSpec.remove_index`. -/
def TableSpec.remove_index (t : TableState) (key : String) :
    Option Err × TableState :=
  match dictGet? key t.index_key with
  | none => (some (.unknownIndex key), t)
  | some ixrec =>
    match runSteps (TableSpec.removeIndexStep key) t ixrec.columns with
    | (some e, t') => (some e, t')
    | (none, t') => (none, { t' with index_key := dictDel t'.index_key key })

/-- `TableSpec.remove_column`: the cascading loop iterates over the list
object `self.column_key[key]['indexes']` captured at loop setup, so the
iterated list is the one read before any index removal. -/
def TableSpec.remove_column (t : TableState) (key : String) :
    Option Err × TableState :=
  match dictGet? key t.column_key with
  | none => (some (.unknownColumn key), t)
  | some entry =>
    match entry.indexes with
    | none => (none, { t with column_key := dictDel t.column_key key })
    | some idxs =>
      match runSteps TableSpec.remove_index t idxs with
      | (some e, t') => (some e, t')
      | (none, t') => (none, { t' with column_key := dictDel t'.column_key key })

/-- `TableSpec.get_columns`. -/
def TableSpec.get_columns (t : TableState) : Except Err (List ColRec) :=
  mapExcept ColumnSpec.mk? (columnView t)

/-- `TableSpec.get_column`. -/
def TableSpec.get_column (t : TableState) (name : String) : Except Err ColRec :=
  match dictGet? name t.column_key with
  | none => .error (.unknownColumn name)
  | some c => ColumnSpec.mk? c

/-- One element of `TableSpec.check_index_columns`: strip, the two-regex
parse, then the declared-column check. -/
def TableSpec.checkIndexElem (t : TableState) (raw : String) : Except Err ColRef :=
  let col := pyStrip raw
  match parseIndexElem col with
  | none => .error (.invalidIndexColumn col)
  | some (colname, size) =>
    if dictMem colname t.column_key then
      .ok { column := colname, size := size.map JSize.str }
    else .error (.indexColumnNotFound colname)

/-- `TableSpec.check_index_columns`. -/
def TableSpec.check_index_columns (t : TableState) (columns : String) :
    Except Err (List ColRef) :=
  mapExcept (TableSpec.checkIndexElem t) (splitComma columns)

/-- One iteration of the column loop in `TableSpec.add_index`:
`coldata = self.column_key[cs['column']]` (KeyError when absent), then
`setdefault('indexes', [])`, append of the index name and re-sort. -/
def TableSpec.addIndexStep (name : String) (st : TableState) (cs : ColRef) :
    Option Err × TableState :=
  match dictGet? cs.column st.column_key with
  | none => (some (.keyError cs.column), st)
  | some coldata =>
    let lst' := sortStr (coldata.indexes.getD [] ++ [name])
    let coldata' := { coldata with indexes := some lst' }
    (none, { st with column_key := dictSet st.column_key cs.column coldata' })

/-- `TableSpec.add_index`.  The insertion into the index-key dict uses the
literal string `'name'` as the key, reproducing the source line
`self.index_key['name'] = idxspec` verbatim. -/
def TableSpec.add_index (t : TableState) (idxspec : IxRec) :
    Option Err × TableState :=
  if dictMem idxspec.name t.index_key then
    (some (.duplicateIndex idxspec.name), t)
  else
    runSteps (TableSpec.addIndexStep idxspec.name)
      { t with index_key := dictSet t.index_key "name" idxspec } idxspec.columns

/-- `TableSpec.get_indexes`. -/
def TableSpec.get_indexes (t : TableState) : Except Err (List IxRec) :=
  mapExcept IndexSpec.mk? (indexView t)

/-- `TableSpec.get_index`. -/
def TableSpec.get_index (t : TableState) (name : String) : Except Err IxRec :=
  match dictGet? name t.index_key with
  | none => .error (.unknownIndex name)
  | some i => IndexSpec.mk? i

/-! ### Persistence -/

/-- `TableSpec.to_json`: the sorted views, copied, under fixed keys. -/
def TableSpec.to_json (t : TableState) : Doc :=
  { table := t.table, column := columnView t, index := indexView t }

/-- `TableSpec.from_json`: keys every entry of the `column` / `index`
arrays into the dicts by its `name` field (a later entry with the same
name overwrites an earlier one), then recomputes the sorted views. -/
def TableSpec.from_json (t : TableState) (spec : Doc) : TableState :=
  let ck := spec.column.foldl (fun m cl => dictSet m cl.name cl) t.column_key
  let ik := spec.index.foldl (fun m ix => dictSet m ix.name ix) t.index_key
  { t with column_key := ck, index_key := ik }

/-- `TableSpec.read_file` on an already-parsed document: a fresh
`TableSpec(spec['table'])` populated by `from_json` (the `json.load` /
`json.dump` pair is an identity on documents and is not re-modelled). -/
def TableSpec.read_file (spec : Doc) : TableState :=
  TableSpec.from_json { table := spec.table, column_key := [], index_key := [] } spec

/-- JSON string literal (escaping elided; irrelevant to determinism). -/
def jstr (s : String) : String := "\"" ++ s ++ "\""

/-- JSON boolean literal. -/
def jbool : Bool → String
  | true => "true"
  | false => "false"

/-- JSON rendering of a size value: a number or a quoted string — the two
produce different bytes, as `json.dump` does for `10` versus `'10'`. -/
def jsize : JSize → String
  | .num n => toString n
  | .str s => jstr s

/-- The fields of a column record present in the dict, in sorted key order
(`sort_keys=True`). -/
def colRecFields (c : ColRec) : List String :=
  (match c.default with
   | none => [] | some d => [jstr "default" ++ ": " ++ jstr d]) ++
  (match c.default_value with
   | none => [] | some v => [jstr "default_value" ++ ": " ++ jstr v]) ++
  (match c.indexes with
   | none => []
   | some l => [jstr "indexes" ++ ": [" ++ String.intercalate ", " (l.map jstr) ++ "]"]) ++
  [jstr "length" ++ ": " ++ (match c.length with | none => "null" | some l => jstr l)] ++
  (match c.length_specify with
   | none => [] | some n => [jstr "length_specify" ++ ": " ++ toString n]) ++
  [jstr "name" ++ ": " ++ jstr c.name,
   jstr "nullable" ++ ": " ++ jbool c.nullable,
   jstr "type" ++ ": " ++ jstr c.type]

/-- Deterministic rendering of one column record. -/
def serializeColRec (c : ColRec) : String :=
  "\x7b" ++ String.intercalate ", " (colRecFields c) ++ "\x7d"

/-- Deterministic rendering of one index column reference. -/
def serializeColRef (r : ColRef) : String :=
  "\x7b" ++ String.intercalate ", "
    ([jstr "column" ++ ": " ++ jstr r.column] ++
     (match r.size with | none => [] | some s => [jstr "size" ++ ": " ++ jsize s])) ++ "\x7d"

/-- Deterministic rendering of one index record, keys sorted. -/
def serializeIxRec (i : IxRec) : String :=
  "\x7b" ++ jstr "columns" ++ ": [" ++
    String.intercalate ", " (i.columns.map serializeColRef) ++ "], " ++
  jstr "name" ++ ": " ++ jstr i.name ++ ", " ++
  jstr "type" ++ ": " ++ jstr i.type ++ "\x7d"

/-- The deterministic byte output of
`json.dump(spec, fh, sort_keys=True, indent=4)`: top-level keys in sorted
order with stable indentation (the exact whitespace constants are fixed
once here; the round-trip law needs only that this is a function of the
document). -/
def serializeDoc (d : Doc) : String :=
  "\x7b\n    " ++ jstr "column" ++ ": [" ++
    String.intercalate ", " (d.column.map serializeColRec) ++ "],\n    " ++
  jstr "index" ++ ": [" ++
    String.intercalate ", " (d.index.map serializeIxRec) ++ "],\n    " ++
  jstr "table" ++ ": " ++ jstr d.table ++ "\n\x7d"

/-- `TableSpec.write_file`: serialize `to_json` deterministically. -/
def TableSpec.write_file (t : TableState) : String :=
  serializeDoc (TableSpec.to_json t)

/-! ### TableBuilder -/

/-- A compiled table element as passed to `Table(...)`: a column or an
index. -/
inductive TableItem
  | col (c : Column)
  | idx (i : IndexDef)
deriving DecidableEq

/-- The compiled `Table(...)` value. -/
structure TableDef where
  name : String
  items : List TableItem
  sqlite_autoincrement : Bool
deriving DecidableEq

/-- `TableBuilder.build_sqlalchemy_table`: the synthesized `id` primary
key, then the declared columns from the sorted view, then the indexes,
with `sqlite_autoincrement` set for the sqlite engine. -/
def TableBuilder.build_sqlalchemy_table (t : TableState) (engine : Engine) :
    Except Err TableDef :=
  let ptype : SqlType := if engine = .sqlite then .integer else .bigInteger
  let idCol : Column :=
    { name := "id", sqltype := ptype, nullable := false, primary_key := true }
  match TableSpec.get_columns t with
  | .error e => .error e
  | .ok cols =>
    match mapExcept (fun c => ColumnSpec.build_column c engine) cols with
    | .error e => .error e
    | .ok colDefs =>
      match TableSpec.get_indexes t with
      | .error e => .error e
      | .ok idxs =>
        .ok { name := t.table,
              items := TableItem.col idCol ::
                (colDefs.map TableItem.col ++
                 (idxs.map IndexSpec.build_index).map TableItem.idx),
              sqlite_autoincrement := decide (engine = .sqlite) }

/-! ### Well-formedness and consistency predicates -/

/-- Success test for an `Except` result. -/
def exceptOk : Except Err α → Bool
  | .ok _ => true
  | .error _ => false

/-- The column named by `cr` exists and its back-reference list contains
the index name `k`. -/
def backRefOk (t : TableState) (k : String) (cr : ColRef) : Bool :=
  match dictGet? cr.column t.column_key with
  | none => false
  | some c =>
    match c.indexes with
    | none => false
    | some lst => decide (k ∈ lst)

/-- The index named `i` exists and references the column named `c`. -/
def refOk (t : TableState) (c : String) (i : String) : Bool :=
  match dictGet? i t.index_key with
  | none => false
  | some ix => decide (∃ cr ∈ ix.columns, cr.column = c)

/-- The effect of one `remove_index` iteration on a column record: the
removed index name is filtered out of the back-reference list, which is
dropped entirely when it becomes empty. -/
def stripRef (key : String) (cs : ColRec) : ColRec :=
  let lst' := (cs.indexes.getD []).filter (fun x => x != key)
  { cs with indexes := if lst' = [] then none else some lst' }

/-- Consistency of a `TableSpec` state, as maintained by the mutation API:
dict keys are unique; every column's back-reference list is duplicate-free
and points only to existing indexes that really reference the column; every
index references distinct, existing columns, each of which back-references
the index. -/
def Consistent (t : TableState) : Prop :=
  (keysOf t.column_key).Nodup ∧
  (keysOf t.index_key).Nodup ∧
  (∀ p ∈ t.column_key, (p.2.indexes.getD []).Nodup ∧
     ∀ i ∈ p.2.indexes.getD [], refOk t p.1 i = true) ∧
  (∀ q ∈ t.index_key, (q.2.columns.map ColRef.column).Nodup ∧
     ∀ cr ∈ q.2.columns, backRefOk t q.1 cr = true)

instance (t : TableState) : Decidable (Consistent t) := by
  unfold Consistent; exact inferInstance

/-- Structural well-formedness of a stored state: unique dict keys and
every record keyed by its own `name` field (true of every state the API
builds, and of every loaded file). -/
def WF (t : TableState) : Prop :=
  (keysOf t.column_key).Nodup ∧
  (keysOf t.index_key).Nodup ∧
  (∀ p ∈ t.column_key, p.2.name = p.1) ∧
  (∀ q ∈ t.index_key, q.2.name = q.1)

instance (t : TableState) : Decidable (WF t) := by
  unfold WF; exact inferInstance

/-! ### Concrete states used by witnesses and counterexamples -/

/-- A column record `a` of integer type. -/
def aRec : ColRec := { name := "a", type := "integer", default := some "none" }

/-- A column record `b` of integer type. -/
def bRec : ColRec := { name := "b", type := "integer", default := some "none" }

/-- A table holding only column `a`. -/
def tblA : TableState := { table := "t", column_key := [("a", aRec)], index_key := [] }

/-- A table holding columns `a` and `b`. -/
def tblAB : TableState :=
  { table := "t", column_key := [("a", aRec), ("b", bRec)], index_key := [] }

/-- The index spec `ix_a` over column `a`. -/
def ixA : IxRec := { name := "ix_a", type := "index", columns := [{ column := "a" }] }

/-- An index spec referencing existing column `a` and missing column
`zzz`. -/
def ixAZ : IxRec :=
  { name := "ix", type := "index", columns := [{ column := "a" }, { column := "zzz" }] }

/-- A consistent table: columns `a`, `b`, both back-referencing the index
`ix1`, which spans both. -/
def tblCons : TableState :=
  { table := "t",
    column_key :=
      [("a", { aRec with indexes := some ["ix1"] }),
       ("b", { bRec with indexes := some ["ix1"] })],
    index_key :=
      [("ix1", { name := "ix1", type := "index",
                 columns := [{ column := "a" }, { column := "b" }] })] }

/-- A well-formed two-column, one-index state for the round-trip witness
(column keys deliberately out of sorted order). -/
def tblSave : TableState :=
  { table := "notes",
    column_key :=
      [("title", { name := "title", type := "string", length := some "default",
                   nullable := false, default := some "none",
                   indexes := some ["ix_title"] }),
       ("amount", { name := "amount", type := "currency",
                    nullable := true, default := some "none" })],
    index_key :=
      [("ix_title", { name := "ix_title", type := "unique",
                      columns := [{ column := "title" }] })] }

/-- A column record with a name rejected by the identifier pattern. -/
def badRec : ColRec := { name := "9 bad!", type := "integer", default := some "none" }

/-- The empty table. -/
def tblEmpty : TableState := { table := "t", column_key := [], index_key := [] }

/-- A fresh column record `c` used by the add/remove round-trip witness. -/
def cRec : ColRec := { name := "c", type := "integer", default := some "none" }

/-- A uuid column declaration used by the type-mapping witness. -/
def uuidRec : ColRec := { name := "u", type := "uuid", default := some "none" }

/-! ### Helper lemmas: the dict model -/

theorem dictMem_eq (k : String) (m : List (String × α)) :
    dictMem k m = (dictGet? k m).isSome := rfl

theorem dictGet?_eq_none_iff {k : String} {m : List (String × α)} :
    dictGet? k m = none ↔ ∀ p ∈ m, p.1 ≠ k := by
  induction m with
  | nil => simp [dictGet?]
  | cons p rest ih =>
    by_cases h : p.1 = k <;> simp [dictGet?, h, ih]

theorem dictGet?_mem {k : String} {m : List (String × α)} {v : α}
    (h : dictGet? k m = some v) : (k, v) ∈ m := by
  induction m with
  | nil => simp [dictGet?] at h
  | cons p rest ih =>
    obtain ⟨k', v'⟩ := p
    by_cases hp : k' = k
    · subst hp
      rw [dictGet?, if_pos rfl] at h
      cases h
      exact List.mem_cons_self _ _
    · rw [dictGet?, if_neg hp] at h
      exact List.mem_cons_of_mem _ (ih h)

theorem dictMem_iff_mem_keys {k : String} {m : List (String × α)} :
    dictMem k m = true ↔ k ∈ keysOf m := by
  rw [dictMem_eq]
  induction m with
  | nil => simp [dictGet?, keysOf]
  | cons p rest ih =>
    simp only [dictGet?, keysOf, List.map_cons, List.mem_cons]
    by_cases hp : p.1 = k
    · simp [hp]
    · rw [if_neg hp]
      rw [show keysOf rest = rest.map Prod.fst from rfl] at ih
      rw [ih]
      constructor
      · exact fun h => Or.inr h
      · rintro (h | h)
        · exact absurd h.symm hp
        · exact h

theorem dictGet?_append {m m' : List (String × α)} {k : String} :
    dictGet? k (m ++ m') =
      match dictGet? k m with
      | some v => some v
      | none => dictGet? k m' := by
  induction m with
  | nil => simp [dictGet?]
  | cons p rest ih => by_cases hp : p.1 = k <;> simp [dictGet?, hp, ih]

theorem dictGet?_map_replace {m : List (String × α)} {k : String} {v : α}
    (hm : dictMem k m = true) :
    dictGet? k (m.map (fun p => if p.1 = k then (k, v) else p)) = some v := by
  induction m with
  | nil => simp [dictMem, dictGet?] at hm
  | cons p rest ih =>
    rw [List.map_cons]
    by_cases hp : p.1 = k
    · rw [if_pos hp]
      simp [dictGet?]
    · rw [if_neg hp]
      simp only [dictGet?]
      rw [if_neg hp]
      apply ih
      simpa [dictMem, dictGet?, hp] using hm

theorem dictGet?_map_replace_ne {m : List (String × α)} {k k' : String} {v : α}
    (hne : k' ≠ k) :
    dictGet? k' (m.map (fun p => if p.1 = k then (k, v) else p)) = dictGet? k' m := by
  induction m with
  | nil => rfl
  | cons p rest ih =>
    rw [List.map_cons]
    by_cases hp : p.1 = k
    · rw [if_pos hp]
      simp only [dictGet?]
      rw [if_neg (show ¬ k = k' from fun hh => hne hh.symm),
          if_neg (show ¬ p.1 = k' from by rw [hp]; exact fun hh => hne hh.symm), ih]
    · rw [if_neg hp]
      simp only [dictGet?]
      by_cases hq : p.1 = k'
      · rw [if_pos hq, if_pos hq]
      · rw [if_neg hq, if_neg hq, ih]

theorem dictGet?_dictSet_self (m : List (String × α)) (k : String) (v : α) :
    dictGet? k (dictSet m k v) = some v := by
  unfold dictSet
  by_cases hm : dictMem k m
  · rw [if_pos hm]; exact dictGet?_map_replace hm
  · rw [if_neg hm, dictGet?_append]
    have hnone : dictGet? k m = none := by
      rw [dictMem_eq] at hm
      cases h : dictGet? k m
      · rfl
      · rw [h] at hm; simp at hm
    rw [hnone]
    simp [dictGet?]

theorem dictGet?_dictSet_ne (m : List (String × α)) {k k' : String} (v : α)
    (hne : k' ≠ k) :
    dictGet? k' (dictSet m k v) = dictGet? k' m := by
  unfold dictSet
  by_cases hm : dictMem k m
  · rw [if_pos hm]; exact dictGet?_map_replace_ne hne
  · rw [if_neg hm, dictGet?_append]
    cases h : dictGet? k' m with
    | none =>
      show dictGet? k' [(k, v)] = none
      simp only [dictGet?]
      rw [if_neg (show ¬ k = k' from fun hh => hne hh.symm)]
    | some w => rfl

theorem keysOf_dictSet_of_mem {m : List (String × α)} {k : String} (v : α)
    (hm : dictMem k m = true) :
    keysOf (dictSet m k v) = keysOf m := by
  unfold dictSet
  rw [if_pos hm]
  unfold keysOf
  rw [List.map_map]
  apply List.map_congr_left
  intro p hp
  by_cases h : p.1 = k <;> simp [h]

theorem keysOf_dictSet_of_not_mem {m : List (String × α)} {k : String} (v : α)
    (hm : dictMem k m = false) :
    keysOf (dictSet m k v) = keysOf m ++ [k] := by
  unfold dictSet
  rw [if_neg (by simp [hm])]
  simp [keysOf]

theorem nodup_keys_dictSet {m : List (String × α)} {k : String} (v : α)
    (h : (keysOf m).Nodup) : (keysOf (dictSet m k v)).Nodup := by
  by_cases hm : dictMem k m
  · rw [keysOf_dictSet_of_mem v hm]; exact h
  · rw [keysOf_dictSet_of_not_mem v (by simpa using hm)]
    rw [List.nodup_append]
    refine ⟨h, List.nodup_singleton k, ?_⟩
    intro x hx hk
    rw [List.mem_singleton] at hk
    subst hk
    exact hm (dictMem_iff_mem_keys.mpr hx)

theorem dictGet?_dictDel_self (m : List (String × α)) (k : String) :
    dictGet? k (dictDel m k) = none := by
  rw [dictGet?_eq_none_iff]
  intro p hp
  have := List.of_mem_filter hp
  simpa using this

theorem dictGet?_dictDel_ne (m : List (String × α)) {k k' : String} (hne : k' ≠ k) :
    dictGet? k' (dictDel m k) = dictGet? k' m := by
  induction m with
  | nil => rfl
  | cons p rest ih =>
    by_cases hp : p.1 = k
    · have h1 : dictDel (p :: rest) k = dictDel rest k := by simp [dictDel, hp]
      rw [h1, ih, dictGet?,
        if_neg (show ¬ p.1 = k' by rw [hp]; exact fun hh => hne hh.symm)]
    · have h1 : dictDel (p :: rest) k = p :: dictDel rest k := by simp [dictDel, hp]
      by_cases hq : p.1 = k'
      · rw [h1, dictGet?, if_pos hq, dictGet?, if_pos hq]
      · rw [h1, dictGet?, if_neg hq, dictGet?, if_neg hq, ih]

theorem keysOf_dictDel (m : List (String × α)) (k : String) :
    keysOf (dictDel m k) = (keysOf m).filter (fun x => x ≠ k) := by
  induction m with
  | nil => rfl
  | cons p rest ih =>
    by_cases hp : p.1 = k
    · have h1 : dictDel (p :: rest) k = dictDel rest k := by simp [dictDel, hp]
      have h2 : (keysOf (p :: rest)).filter (fun x => x ≠ k)
          = (keysOf rest).filter (fun x => x ≠ k) := by
        simp [keysOf, hp]
      rw [h1, h2, ih]
    · have h1 : dictDel (p :: rest) k = p :: dictDel rest k := by simp [dictDel, hp]
      have h2 : (keysOf (p :: rest)).filter (fun x => x ≠ k)
          = p.1 :: (keysOf rest).filter (fun x => x ≠ k) := by
        simp [keysOf, hp]
      rw [h1, h2, ← ih]
      rfl

/-! ### Helper lemmas: sorting -/

theorem sortStr_perm (l : List String) : List.Perm (sortStr l) l :=
  List.perm_insertionSort _ l

theorem sortStr_sorted (l : List String) : List.Sorted strLeRel (sortStr l) :=
  List.sorted_insertionSort _ l

theorem sortStr_eq_self {l : List String} (h : List.Sorted strLeRel l) :
    sortStr l = l :=
  h.insertionSort_eq

/-! ### Helper lemmas: mapExcept -/

theorem mapExcept_ok_id {f : α → Except Err α} {l : List α}
    (h : ∀ a ∈ l, f a = .ok a) : mapExcept f l = .ok l := by
  induction l with
  | nil => rfl
  | cons a as ih =>
    have h1 := h a (List.mem_cons_self a as)
    have h2 := ih (fun x hx => h x (List.mem_cons_of_mem _ hx))
    simp only [mapExcept, h1, h2]

theorem mapExcept_ok_of_all {f : α → Except Err β} {l : List α}
    (h : ∀ a ∈ l, exceptOk (f a) = true) :
    ∃ bs, mapExcept f l = .ok bs ∧ List.Forall₂ (fun a b => f a = .ok b) l bs := by
  induction l with
  | nil => exact ⟨[], rfl, List.Forall₂.nil⟩
  | cons a as ih =>
    obtain ⟨bs, hbs, hall⟩ := ih (fun x hx => h x (List.mem_cons_of_mem _ hx))
    have ha := h a (List.mem_cons_self a as)
    cases hfa : f a with
    | error e => rw [hfa] at ha; simp [exceptOk] at ha
    | ok b =>
      refine ⟨b :: bs, ?_, List.Forall₂.cons hfa hall⟩
      simp only [mapExcept, hfa, hbs]

/-! ### Claim C1 -/

theorem buildSqlType_of_spec {c : ColRec} {e : Engine} {ty : SqlType}
    (h : specEngineType c.type c.length c.length_specify e = some ty) :
    ColumnSpec.buildSqlType c e = .ok (some ty) := by
  unfold specEngineType at h
  unfold ColumnSpec.buildSqlType
  by_cases h1 : c.type = "string"
  · rw [if_pos h1] at h ⊢
    cases hl : c.length with
    | none => rw [hl] at h; simp at h
    | some l =>
      rw [hl] at h
      by_cases hd : l = "default"
      · subst hd
        simp at h
        simp [h]
      · by_cases hlong : l = "long"
        · subst hlong
          simp [hd] at h ⊢
          cases e <;> simp_all
        · by_cases hspec : l = "specify"
          · subst hspec
            simp [hd, hlong] at h ⊢
            cases hn : c.length_specify with
            | none => rw [hn] at h; simp at h
            | some n => rw [hn] at h; simp at h; simp [h]
          · simp [hd, hlong, hspec] at h
  · rw [if_neg h1] at h ⊢
    by_cases h2 : c.type = "binary"
    · rw [if_pos h2] at h ⊢
      cases hl : c.length with
      | none => rw [hl] at h; simp at h
      | some l =>
        rw [hl] at h
        by_cases hd : l = "default"
        · subst hd
          simp at h ⊢
          cases e <;> simp_all
        · by_cases hlong : l = "long"
          · subst hlong
            simp [hd] at h ⊢
            cases e <;> simp_all
          · by_cases hspec : l = "specify"
            · subst hspec
              simp [hd, hlong] at h ⊢
              cases e with
              | postgresql => simp_all
              | mysql =>
                cases hn : c.length_specify with
                | none => rw [hn] at h; simp at h
                | some n => rw [hn] at h; simp at h; simp_all
              | sqlite =>
                cases hn : c.length_specify with
                | none => rw [hn] at h; simp at h
                | some n => rw [hn] at h; simp at h; simp_all
            · simp [hd, hlong, hspec] at h
    · rw [if_neg h2] at h ⊢
      by_cases h3 : c.type = "integer"
      · rw [if_pos h3] at h ⊢; cases e <;> simp_all
      · rw [if_neg h3] at h ⊢
        by_cases h4 : c.type = "float"
        · rw [if_pos h4] at h ⊢; simp_all
        · rw [if_neg h4] at h ⊢
          by_cases h5 : c.type = "currency"
          · rw [if_pos h5] at h ⊢; simp_all
          · rw [if_neg h5] at h ⊢
            by_cases h6 : c.type = "boolean"
            · rw [if_pos h6] at h ⊢; simp_all
            · rw [if_neg h6] at h ⊢
              by_cases h7 : c.type = "record"
              · rw [if_pos h7] at h ⊢; cases e <;> simp_all
              · rw [if_neg h7] at h ⊢
                by_cases h8 : c.type = "date"
                · rw [if_pos h8] at h ⊢; simp_all
                · rw [if_neg h8] at h ⊢
                  by_cases h9 : c.type = "datetime"
                  · rw [if_pos h9] at h ⊢; simp_all
                  · rw [if_neg h9] at h ⊢
                    by_cases h10 : c.type = "json"
                    · rw [if_pos h10] at h ⊢; simp_all
                    · rw [if_neg h10] at h ⊢
                      by_cases h11 : c.type = "uuid"
                      · rw [if_pos h11] at h ⊢; cases e <;> simp_all
                      · rw [if_neg h11] at h; simp at h

/-- Claim C1: for every column declaration whose type and length resolve in
the section 4.1 mapping table (`specEngineType`, written from the spec's
table) and whose default fields are present as the file format requires,
`ColumnSpec.build_column` succeeds and produces exactly the engine type of
the corresponding (type, length, engine) cell, keeping the declared name
and nullability. -/
theorem c1_build_column_follows_mapping (c : ColRec) (e : Engine) (ty : SqlType)
    (h : specEngineType c.type c.length c.length_specify e = some ty)
    (hd : c.default.isSome = true)
    (hdv : c.default = some "specify" → c.default_value.isSome = true) :
    ∃ col, ColumnSpec.build_column c e = .ok col ∧ col.sqltype = ty ∧
      col.name = c.name ∧ col.nullable = c.nullable := by
  have hb := buildSqlType_of_spec h
  unfold ColumnSpec.build_column
  rw [hb]
  cases hdef : c.default with
  | none => rw [hdef] at hd; simp at hd
  | some d =>
    by_cases hn : d = "null"
    · subst hn
      refine ⟨{ name := c.name, sqltype := ty, nullable := c.nullable,
                server_default := some .nullLiteral, primary_key := false },
              ?_, rfl, rfl, rfl⟩
      simp
    · by_cases hs : d = "specify"
      · subst hs
        cases hv : c.default_value with
        | none =>
          have hx := hdv hdef
          rw [hv] at hx
          simp at hx
        | some v =>
          refine ⟨{ name := c.name, sqltype := ty, nullable := c.nullable,
                    server_default := some (.value v), primary_key := false },
                  ?_, rfl, rfl, rfl⟩
          simp [hn]
      · refine ⟨{ name := c.name, sqltype := ty, nullable := c.nullable,
                  server_default := none, primary_key := false },
                ?_, rfl, rfl, rfl⟩
        simp [hn, hs]

theorem c1_build_column_follows_mapping_witness :
    specEngineType uuidRec.type uuidRec.length uuidRec.length_specify Engine.mysql
        = some (SqlType.varbinary 16) ∧
    ∃ col, ColumnSpec.build_column uuidRec Engine.mysql = .ok col ∧
      col.sqltype = .varbinary 16 ∧ col.name = uuidRec.name ∧
      col.nullable = uuidRec.nullable :=
  ⟨by decide,
   c1_build_column_follows_mapping uuidRec Engine.mysql (.varbinary 16)
     (by decide) (by decide) (by decide)⟩

/-! ### Claims C2 and C3 -/

/-- Claim C2 (code bug): on a table with column `a`, `add_index` accepts
the index spec named `ix_a` without error, but stores it in the index-key
mapping under the literal key `"name"` rather than under `"ix_a"`
(`self.index_key['name'] = idxspec`), so the `get_index "ix_a"` the claim
promises to succeed fails with UnknownIndex; only the sorted-view part of
the claim holds, since the view lists values regardless of their key. -/
theorem c2_add_index_stores_under_literal_name_key :
    (TableSpec.add_index tblA ixA).1 = none ∧
    dictGet? "name" (TableSpec.add_index tblA ixA).2.index_key = some ixA ∧
    dictGet? "ix_a" (TableSpec.add_index tblA ixA).2.index_key = none ∧
    TableSpec.get_index (TableSpec.add_index tblA ixA).2 "ix_a"
      = .error (.unknownIndex "ix_a") ∧
    indexView (TableSpec.add_index tblA ixA).2 = [ixA] := by
  decide

/-- Claim C3 (code bug): `add_index` with an index spec referencing the
existing column `a` and the missing column `zzz` raises the raw dict
`KeyError` for `zzz` instead of an UnknownColumn validation error, and only
after mutating the table: the index-key mapping has already received the
entry (under the literal key `"name"`) and column `a`'s back-reference
list already carries `"ix"`, so the table is not left unchanged. -/
theorem c3_add_index_mutates_before_unknown_column_failure :
    (TableSpec.add_index tblA ixAZ).1 = some (.keyError "zzz") ∧
    (TableSpec.add_index tblA ixAZ).2 ≠ tblA ∧
    dictGet? "name" (TableSpec.add_index tblA ixAZ).2.index_key = some ixAZ ∧
    (dictGet? "a" (TableSpec.add_index tblA ixAZ).2.column_key).map ColRec.indexes
      = some (some ["ix"]) := by
  decide

/-! ### Claim C8 -/

/-- Claim C8 counterexample: the name `"9 bad!"` fails the identifier
pattern (the `check_column` validator rejects it), yet `add_column` accepts
it without any error and inserts the column — `add_column` never applies
the InvalidName check the claim requires. -/
theorem c8_add_column_accepts_invalid_name :
    TableSpec.check_column "9 bad!" = .error (.invalidColumnName "9 bad!") ∧
    (TableSpec.add_column tblEmpty badRec).1 = none ∧
    dictGet? "9 bad!" (TableSpec.add_column tblEmpty badRec).2.column_key
      = some badRec := by
  decide

/-- Claim C8 (amended): `add_column` fails with DuplicateName and leaves
the table unchanged when the name is already present; otherwise it inserts
the column (recomputing the sorted view) with no name-pattern validation of
any kind — the identifier check lives only in the separate `check_column`
helper, which `add_column` does not call. -/
theorem c8_add_column_checks_duplicates_only (t : TableState) (c : ColRec) :
    (dictMem c.name t.column_key = true →
      TableSpec.add_column t c = (some (.duplicateColumn c.name), t)) ∧
    (dictMem c.name t.column_key = false →
      TableSpec.add_column t c
        = (none, { t with column_key := dictSet t.column_key c.name c })) := by
  constructor
  · intro h
    unfold TableSpec.add_column
    rw [if_pos h]
  · intro h
    unfold TableSpec.add_column
    rw [if_neg (by simp [h])]

theorem c8_add_column_checks_duplicates_only_witness :
    TableSpec.add_column tblEmpty badRec
      = (none, { tblEmpty with
          column_key := dictSet tblEmpty.column_key badRec.name badRec }) :=
  (c8_add_column_checks_duplicates_only tblEmpty badRec).2 (by decide)

/-! ### Claim C9 -/

/-- Claim C9: adding a fresh valid column spec that carries no
back-referenced indexes and then removing the same name restores exactly
the prior table state — hence the prior column set and the prior sorted
column order. -/
theorem c9_add_then_remove_column_restores (t : TableState) (c : ColRec)
    (hfresh : dictGet? c.name t.column_key = none)
    (hidx : c.indexes = none) :
    ∃ t1, TableSpec.add_column t c = (none, t1) ∧
      TableSpec.remove_column t1 c.name = (none, t) := by
  have hmem : dictMem c.name t.column_key = false := by
    rw [dictMem_eq, hfresh]; rfl
  refine ⟨{ t with column_key := t.column_key ++ [(c.name, c)] }, ?_, ?_⟩
  · unfold TableSpec.add_column
    rw [if_neg (by simp [hmem])]
    unfold dictSet
    rw [if_neg (by simp [hmem])]
  · unfold TableSpec.remove_column
    have hget : dictGet? c.name (t.column_key ++ [(c.name, c)]) = some c := by
      rw [dictGet?_append, hfresh]
      simp [dictGet?]
    have hdel : dictDel (t.column_key ++ [(c.name, c)]) c.name = t.column_key := by
      unfold dictDel
      rw [List.filter_append]
      have h1 : t.column_key.filter (fun p => p.1 ≠ c.name) = t.column_key := by
        rw [List.filter_eq_self]
        intro p hp
        simpa using (dictGet?_eq_none_iff.mp hfresh) p hp
      have h2 : ([(c.name, c)] : List (String × ColRec)).filter
          (fun p => p.1 ≠ c.name) = [] := by simp
      rw [h1, h2, List.append_nil]
    simp only [hget, hidx, hdel]

theorem c9_add_then_remove_column_restores_witness :
    ∃ t1, TableSpec.add_column tblA cRec = (none, t1) ∧
      TableSpec.remove_column t1 cRec.name = (none, tblA) :=
  c9_add_then_remove_column_restores tblA cRec (by decide) (by decide)

/-! ### Claim C10 -/

theorem dictGet?_foldl_dictSet {β : Type} (nm : β → String) (l : List β)
    (m : List (String × β)) (n : String) :
    dictGet? n (l.foldl (fun acc x => dictSet acc (nm x) x) m) =
      match l.reverse.find? (fun x => nm x == n) with
      | some x => some x
      | none => dictGet? n m := by
  induction l generalizing m with
  | nil => simp
  | cons x xs ih =>
    rw [List.foldl_cons, ih, List.reverse_cons, List.find?_append]
    cases hf : xs.reverse.find? (fun x => nm x == n) with
    | some y => simp [Option.or]
    | none =>
      simp only [Option.or]
      by_cases hx : nm x = n
      · subst hx
        simp [List.find?, dictGet?_dictSet_self]
      · rw [dictGet?_dictSet_ne _ _ (fun hh => hx hh.symm)]
        have hb : (nm x == n) = false := beq_eq_false_iff_ne.mpr hx
        simp [List.find?, hb]

theorem nodup_keys_foldl_dictSet {β : Type} (nm : β → String) (l : List β)
    (m : List (String × β)) (h : (keysOf m).Nodup) :
    (keysOf (l.foldl (fun acc x => dictSet acc (nm x) x) m)).Nodup := by
  induction l generalizing m with
  | nil => exact h
  | cons x xs ih => exact ih _ (nodup_keys_dictSet _ h)

theorem mem_keys_foldl_dictSet {β : Type} (nm : β → String) (l : List β)
    (m : List (String × β)) (n : String) :
    n ∈ keysOf (l.foldl (fun acc x => dictSet acc (nm x) x) m) ↔
      n ∈ l.map nm ∨ n ∈ keysOf m := by
  induction l generalizing m with
  | nil => simp
  | cons x xs ih =>
    rw [List.foldl_cons, ih]
    have hk : n ∈ keysOf (dictSet m (nm x) x) ↔ n = nm x ∨ n ∈ keysOf m := by
      by_cases hm : dictMem (nm x) m = true
      · rw [keysOf_dictSet_of_mem _ hm]
        constructor
        · exact fun h => Or.inr h
        · rintro (h | h)
          · subst h; exact dictMem_iff_mem_keys.mp hm
          · exact h
      · rw [keysOf_dictSet_of_not_mem _ (by simpa using hm)]
        simp [or_comm]
    rw [hk]
    simp only [List.map_cons, List.mem_cons]
    tauto

/-- Claim C10: loading a document whose column (or index) array contains
several entries with the same name raises no error (`read_file` /
`from_json` are total on documents); the last entry with a given name is
the one stored under that name, and the loaded table holds exactly one
column (index) per distinct declared name. -/
theorem c10_from_json_duplicate_names_last_wins (d : Doc) :
    (∀ n, dictGet? n (TableSpec.read_file d).column_key =
       match d.column.reverse.find? (fun c => c.name == n) with
       | some c => some c
       | none => none) ∧
    (∀ n, dictGet? n (TableSpec.read_file d).index_key =
       match d.index.reverse.find? (fun i => i.name == n) with
       | some i => some i
       | none => none) ∧
    (keysOf (TableSpec.read_file d).column_key).Nodup ∧
    (∀ n, n ∈ keysOf (TableSpec.read_file d).column_key ↔
       n ∈ d.column.map ColRec.name) ∧
    (keysOf (TableSpec.read_file d).index_key).Nodup ∧
    (∀ n, n ∈ keysOf (TableSpec.read_file d).index_key ↔
       n ∈ d.index.map IxRec.name) := by
  refine ⟨?_, ?_, ?_, ?_, ?_, ?_⟩
  · intro n
    show dictGet? n (d.column.foldl (fun acc x => dictSet acc x.name x) []) = _
    rw [dictGet?_foldl_dictSet ColRec.name]
    cases d.column.reverse.find? (fun c => c.name == n) <;> rfl
  · intro n
    show dictGet? n (d.index.foldl (fun acc x => dictSet acc x.name x) []) = _
    rw [dictGet?_foldl_dictSet IxRec.name]
    cases d.index.reverse.find? (fun i => i.name == n) <;> rfl
  · exact nodup_keys_foldl_dictSet ColRec.name d.column [] List.nodup_nil
  · intro n
    have := mem_keys_foldl_dictSet ColRec.name d.column [] n
    simpa [keysOf] using this
  · exact nodup_keys_foldl_dictSet IxRec.name d.index [] List.nodup_nil
  · intro n
    have := mem_keys_foldl_dictSet IxRec.name d.index [] n
    simpa [keysOf] using this

/-! ### Claim C7 -/

/-- Claim C7 counterexample: on the table with declared columns `a`, `b`,
`check_index_columns "a, b(10)"` returns the prefix size as the digit
string `"10"` — the raw regex capture group — and that result differs from
the claimed normalized form carrying the positive integer 10. -/
theorem c7_check_index_columns_size_stays_string :
    TableSpec.check_index_columns tblAB "a, b(10)"
      = .ok [{ column := "a" }, { column := "b", size := some (.str "10") }] ∧
    (.ok [{ column := "a" }, { column := "b", size := some (.str "10") }]
        : Except Err (List ColRef))
      ≠ .ok [{ column := "a" }, { column := "b", size := some (.num 10) }] := by
  decide

theorem checkIndexColumns_unknown_aux (t : TableState) (l : List String)
    (hall : ∀ s ∈ l, (parseIndexElem (pyStrip s)).isSome = true)
    (hbad : ∃ s ∈ l, ∃ p, parseIndexElem (pyStrip s) = some p ∧
        dictMem p.1 t.column_key = false) :
    ∃ cname, mapExcept (TableSpec.checkIndexElem t) l
        = .error (.indexColumnNotFound cname) ∧
      dictMem cname t.column_key = false := by
  induction l with
  | nil => simp at hbad
  | cons s rest ih =>
    have hs := hall s (List.mem_cons_self s rest)
    cases hp : parseIndexElem (pyStrip s) with
    | none => rw [hp] at hs; simp at hs
    | some p =>
      obtain ⟨cn, sz⟩ := p
      by_cases hmem : dictMem cn t.column_key = true
      · have hhead : TableSpec.checkIndexElem t s
            = .ok { column := cn, size := sz.map JSize.str } := by
          simp [TableSpec.checkIndexElem, hp, hmem]
        obtain ⟨s0, hs0, p0, hp0, hp0mem⟩ := hbad
        rcases List.mem_cons.mp hs0 with rfl | hs0rest
        · rw [hp] at hp0
          cases hp0
          rw [hmem] at hp0mem
          cases hp0mem
        · obtain ⟨cname, hres, hmemr⟩ :=
            ih (fun x hx => hall x (List.mem_cons_of_mem _ hx))
              ⟨s0, hs0rest, p0, hp0, hp0mem⟩
          refine ⟨cname, ?_, hmemr⟩
          simp only [mapExcept, hhead, hres]
      · have hmem' : dictMem cn t.column_key = false := by simpa using hmem
        refine ⟨cn, ?_, hmem'⟩
        have hhead : TableSpec.checkIndexElem t s
            = .error (.indexColumnNotFound cn) := by
          simp [TableSpec.checkIndexElem, hp, hmem']
        simp only [mapExcept, hhead]

theorem checkIndexColumns_invalid_aux (t : TableState) (l : List String)
    (hall : ∀ s ∈ l, ∀ p, parseIndexElem (pyStrip s) = some p →
        dictMem p.1 t.column_key = true)
    (hbad : ∃ s ∈ l, parseIndexElem (pyStrip s) = none) :
    ∃ s0, mapExcept (TableSpec.checkIndexElem t) l
        = .error (.invalidIndexColumn s0) := by
  induction l with
  | nil => simp at hbad
  | cons s rest ih =>
    cases hp : parseIndexElem (pyStrip s) with
    | none =>
      refine ⟨pyStrip s, ?_⟩
      have hhead : TableSpec.checkIndexElem t s
          = .error (.invalidIndexColumn (pyStrip s)) := by
        simp [TableSpec.checkIndexElem, hp]
      simp only [mapExcept, hhead]
    | some p =>
      obtain ⟨cn, sz⟩ := p
      have hmem := hall s (List.mem_cons_self s rest) (cn, sz) hp
      have hhead : TableSpec.checkIndexElem t s
          = .ok { column := cn, size := sz.map JSize.str } := by
        simp [TableSpec.checkIndexElem, hp, hmem]
      have hbad' : ∃ s1 ∈ rest, parseIndexElem (pyStrip s1) = none := by
        obtain ⟨s1, hs1, hs1n⟩ := hbad
        rcases List.mem_cons.mp hs1 with rfl | hs1rest
        · rw [hp] at hs1n; cases hs1n
        · exact ⟨s1, hs1rest, hs1n⟩
      obtain ⟨s0, hs0⟩ :=
        ih (fun x hx q hq => hall x (List.mem_cons_of_mem _ hx) q hq) hbad'
      refine ⟨s0, ?_⟩
      simp only [mapExcept, hhead, hs0]

/-- Claim C7 (amended): on any table with declared columns `a` and `b`,
`check_index_columns "a, b(10)"` returns the normalized structured list
`[{column: "a"}, {column: "b", size: "10"}]` — the size being the decimal
digit string captured by the regex, not an integer; an input whose elements
all parse syntactically but which references an undeclared column fails
with the unknown-column error; and an input whose syntactically valid
elements are all declared but which contains a malformed element fails
with the invalid-specification error. -/
theorem c7_check_index_columns_normalizes (t : TableState) (txt : String) :
    (dictMem "a" t.column_key = true → dictMem "b" t.column_key = true →
      TableSpec.check_index_columns t "a, b(10)"
        = .ok [{ column := "a" }, { column := "b", size := some (.str "10") }]) ∧
    ((∀ s ∈ splitComma txt, (parseIndexElem (pyStrip s)).isSome = true) →
     (∃ s ∈ splitComma txt, ∃ p, parseIndexElem (pyStrip s) = some p ∧
         dictMem p.1 t.column_key = false) →
      ∃ cname, TableSpec.check_index_columns t txt
          = .error (.indexColumnNotFound cname) ∧
        dictMem cname t.column_key = false) ∧
    ((∀ s ∈ splitComma txt, ∀ p, parseIndexElem (pyStrip s) = some p →
         dictMem p.1 t.column_key = true) →
     (∃ s ∈ splitComma txt, parseIndexElem (pyStrip s) = none) →
      ∃ s0, TableSpec.check_index_columns t txt
          = .error (.invalidIndexColumn s0)) := by
  refine ⟨?_, ?_, ?_⟩
  · intro ha hb
    have h1 : TableSpec.checkIndexElem t "a" = .ok { column := "a" } := by
      simp [TableSpec.checkIndexElem,
        show parseIndexElem (pyStrip "a") = some ("a", none) from rfl, ha]
    have h2 : TableSpec.checkIndexElem t " b(10)"
        = .ok { column := "b", size := some (.str "10") } := by
      simp [TableSpec.checkIndexElem,
        show parseIndexElem (pyStrip " b(10)") = some ("b", some "10") from rfl, hb]
    show mapExcept (TableSpec.checkIndexElem t) (splitComma "a, b(10)") = _
    rw [show splitComma "a, b(10)" = ["a", " b(10)"] from rfl]
    simp only [mapExcept, h1, h2]
  · exact checkIndexColumns_unknown_aux t (splitComma txt)
  · exact checkIndexColumns_invalid_aux t (splitComma txt)

theorem c7_check_index_columns_normalizes_witness :
    TableSpec.check_index_columns tblAB "a, b(10)"
      = .ok [{ column := "a" }, { column := "b", size := some (.str "10") }] :=
  (c7_check_index_columns_normalizes tblAB "a, b(10)").1 (by decide) (by decide)

/-! ### Claim C6 -/

/-- Claim C6: for every table whose declared columns all carry valid types
and compile for the target engine, and whose indexes carry valid kinds,
`build_sqlalchemy_table` succeeds and yields: first the synthesized primary
key `id` — not nullable, primary key, 64-bit integer for mysql/postgresql
but native integer for sqlite; then every declared column compiled by the
section 4.1 rules in sorted-view order; then every declared index compiled
by the section 4.2 rules; with the explicit sqlite autoincrement flag set
exactly when the engine is sqlite. -/
theorem c6_build_table_layout (t : TableState) (e : Engine)
    (hc : ∀ c ∈ columnView t, TYPES.contains c.type = true ∧
        exceptOk (ColumnSpec.build_column c e) = true)
    (hi : ∀ i ∈ indexView t, i.type = "index" ∨ i.type = "unique") :
    ∃ cds, TableBuilder.build_sqlalchemy_table t e = .ok
        { name := t.table,
          items := TableItem.col
              { name := "id",
                sqltype := if e = .sqlite then .integer else .bigInteger,
                nullable := false, server_default := none,
                primary_key := true } ::
            (cds.map TableItem.col ++
             ((indexView t).map IndexSpec.build_index).map TableItem.idx),
          sqlite_autoincrement := decide (e = .sqlite) } ∧
      List.Forall₂ (fun c cd => ColumnSpec.build_column c e = .ok cd)
        (columnView t) cds := by
  have hcols : TableSpec.get_columns t = .ok (columnView t) :=
    mapExcept_ok_id (fun c hcm => by
      have h1 : c.type ∈ TYPES := by
        have h2 := (hc c hcm).1
        simpa using h2
      simp [ColumnSpec.mk?, h1])
  have hidxs : TableSpec.get_indexes t = .ok (indexView t) :=
    mapExcept_ok_id (fun i him => by
      rcases hi i him with h | h <;> simp [IndexSpec.mk?, h])
  obtain ⟨cds, hcds, hfa⟩ := mapExcept_ok_of_all (fun c hcm => (hc c hcm).2)
  refine ⟨cds, ?_, hfa⟩
  unfold TableBuilder.build_sqlalchemy_table
  simp only [hcols, hcds, hidxs]

theorem c6_build_table_layout_witness :
    ∃ cds, TableBuilder.build_sqlalchemy_table tblSave Engine.sqlite = .ok
        { name := tblSave.table,
          items := TableItem.col
              { name := "id",
                sqltype := if Engine.sqlite = Engine.sqlite then SqlType.integer
                           else SqlType.bigInteger,
                nullable := false, server_default := none,
                primary_key := true } ::
            (cds.map TableItem.col ++
             ((indexView tblSave).map IndexSpec.build_index).map TableItem.idx),
          sqlite_autoincrement := decide (Engine.sqlite = Engine.sqlite) } ∧
      List.Forall₂ (fun c cd => ColumnSpec.build_column c Engine.sqlite = .ok cd)
        (columnView tblSave) cds :=
  c6_build_table_layout tblSave Engine.sqlite (by decide) (by decide)

/-! ### Claim C5 -/

theorem dictMem_append {β : Type} {k : String} {m m' : List (String × β)} :
    dictMem k (m ++ m') = (dictMem k m || dictMem k m') := by
  rw [dictMem_eq, dictGet?_append]
  cases h : dictGet? k m <;> simp [dictMem_eq, h]

theorem foldl_dictSet_fresh {β : Type} (nm : β → String) (l : List β)
    (m : List (String × β))
    (hnodup : (l.map nm).Nodup)
    (hfresh : ∀ x ∈ l, dictMem (nm x) m = false) :
    l.foldl (fun acc x => dictSet acc (nm x) x) m
      = m ++ l.map (fun x => (nm x, x)) := by
  induction l generalizing m with
  | nil => simp
  | cons x xs ih =>
    rw [List.foldl_cons]
    have hx := hfresh x (List.mem_cons_self x xs)
    have hset : dictSet m (nm x) x = m ++ [(nm x, x)] := by
      unfold dictSet
      rw [if_neg (by simp [hx])]
    rw [List.map_cons] at hnodup
    have hxs : (xs.map nm).Nodup := hnodup.of_cons
    have hnotmem : nm x ∉ xs.map nm := (List.nodup_cons.mp hnodup).1
    have hfresh' : ∀ y ∈ xs, dictMem (nm y) (m ++ [(nm x, x)]) = false := by
      intro y hy
      rw [dictMem_append]
      have h1 : dictMem (nm y) m = false := hfresh y (List.mem_cons_of_mem _ hy)
      have hne : nm x ≠ nm y := fun hh =>
        hnotmem (hh ▸ List.mem_map_of_mem nm hy)
      have h2 : dictMem (nm y) [(nm x, x)] = false := by
        rw [dictMem_eq]
        simp [dictGet?, hne]
      rw [h1, h2]
      rfl
    rw [hset, ih (m ++ [(nm x, x)]) hxs hfresh']
    simp

theorem filterMap_keys_of_pairs {β : Type} (nm : β → String) (cs : List β)
    (hnodup : (cs.map nm).Nodup) :
    (cs.map nm).filterMap
        (fun k => dictGet? k (cs.map (fun c => (nm c, c)))) = cs := by
  induction cs with
  | nil => rfl
  | cons c rest ih =>
    rw [List.map_cons] at hnodup ⊢
    have hnotmem : nm c ∉ rest.map nm := (List.nodup_cons.mp hnodup).1
    have hrest : (rest.map nm).Nodup := (List.nodup_cons.mp hnodup).2
    have h1 : dictGet? (nm c)
        ((nm c, c) :: rest.map (fun c => (nm c, c))) = some c := by
      simp [dictGet?]
    rw [List.map_cons]
    simp only [List.filterMap_cons, h1]
    congr 1
    have hcongr : ∀ k ∈ rest.map nm,
        dictGet? k ((nm c, c) :: rest.map (fun c => (nm c, c)))
          = dictGet? k (rest.map (fun c => (nm c, c))) := by
      intro k hk
      have hne : ¬ nm c = k := fun hh => hnotmem (hh ▸ hk)
      simp only [dictGet?]
      rw [if_neg hne]
    rw [List.filterMap_congr hcongr]
    exact ih hrest

theorem view_map_name {β : Type} (nm : β → String) (m : List (String × β))
    (hname : ∀ p ∈ m, nm p.2 = p.1) (ks : List String)
    (hks : ∀ k ∈ ks, dictMem k m = true) :
    (ks.filterMap (fun k => dictGet? k m)).map nm = ks := by
  induction ks with
  | nil => rfl
  | cons k rest ih =>
    have hk := hks k (List.mem_cons_self k rest)
    rw [dictMem_eq] at hk
    cases hv : dictGet? k m with
    | none => rw [hv] at hk; simp at hk
    | some v =>
      have hvk : nm v = k := hname (k, v) (dictGet?_mem hv)
      simp only [List.filterMap_cons, hv, List.map_cons, hvk]
      rw [ih (fun x hx => hks x (List.mem_cons_of_mem _ hx))]

theorem wf_view_names {β : Type} (nm : β → String) (m : List (String × β))
    (hname : ∀ p ∈ m, nm p.2 = p.1) :
    (sortedView m).map nm = sortStr (keysOf m) := by
  apply view_map_name nm m hname
  intro k hk
  exact dictMem_iff_mem_keys.mpr ((sortStr_perm (keysOf m)).mem_iff.mp hk)

theorem sorted_view_rebuild {β : Type} (nm : β → String) (m : List (String × β))
    (hnodup : (keysOf m).Nodup) (hname : ∀ p ∈ m, nm p.2 = p.1) :
    sortedView ((sortedView m).foldl (fun acc x => dictSet acc (nm x) x) [])
      = sortedView m := by
  have hnames : (sortedView m).map nm = sortStr (keysOf m) := wf_view_names nm m hname
  have hksnodup : (sortStr (keysOf m)).Nodup := (sortStr_perm _).nodup_iff.mpr hnodup
  have hvnodup : ((sortedView m).map nm).Nodup := by rw [hnames]; exact hksnodup
  have hrebuild : (sortedView m).foldl (fun acc x => dictSet acc (nm x) x) []
      = (sortedView m).map (fun c => (nm c, c)) := by
    have := foldl_dictSet_fresh nm (sortedView m) [] hvnodup (fun x hx => rfl)
    simpa using this
  rw [hrebuild]
  have hkeys : keysOf ((sortedView m).map (fun c => (nm c, c)))
      = (sortedView m).map nm := by
    unfold keysOf
    rw [List.map_map]
    rfl
  have hsorted : List.Sorted strLeRel (sortStr (keysOf m)) := sortStr_sorted _
  show (sortStr (keysOf ((sortedView m).map fun c => (nm c, c)))).filterMap
      (fun k => dictGet? k ((sortedView m).map fun c => (nm c, c))) = sortedView m
  rw [hkeys, hnames, sortStr_eq_self hsorted, ← hnames]
  exact filterMap_keys_of_pairs nm (sortedView m) hvnodup

/-- Claim C5: the save/load round trip is byte-identical: for every
well-formed state, loading the document it saves and saving again produces
exactly the same deterministic serialization (arrays sorted by name, keys
sorted, fixed indentation). -/
theorem c5_save_load_save_byte_identical (S : TableState) (h : WF S) :
    TableSpec.write_file (TableSpec.read_file (TableSpec.to_json S))
      = TableSpec.write_file S := by
  obtain ⟨hcn, hin, hcname, hiname⟩ := h
  unfold TableSpec.write_file
  congr 1
  have hc : columnView (TableSpec.read_file (TableSpec.to_json S))
      = columnView S := by
    show sortedView ((sortedView S.column_key).foldl
        (fun acc x => dictSet acc x.name x) []) = sortedView S.column_key
    exact sorted_view_rebuild ColRec.name S.column_key hcn hcname
  have hi : indexView (TableSpec.read_file (TableSpec.to_json S))
      = indexView S := by
    show sortedView ((sortedView S.index_key).foldl
        (fun acc x => dictSet acc x.name x) []) = sortedView S.index_key
    exact sorted_view_rebuild IxRec.name S.index_key hin hiname
  show Doc.mk (TableSpec.read_file (TableSpec.to_json S)).table
      (columnView (TableSpec.read_file (TableSpec.to_json S)))
      (indexView (TableSpec.read_file (TableSpec.to_json S)))
    = Doc.mk S.table (columnView S) (indexView S)
  rw [hc, hi]
  exact rfl

theorem c5_save_load_save_byte_identical_witness :
    TableSpec.write_file (TableSpec.read_file (TableSpec.to_json tblSave))
      = TableSpec.write_file tblSave :=
  c5_save_load_save_byte_identical tblSave (by decide)

/-! ### Claim C4: helper lemmas -/

theorem keysOf_cons (q : String × β) (rest : List (String × β)) :
    keysOf (q :: rest) = q.1 :: keysOf rest := rfl

theorem mem_iff_dictGet? {β : Type} : ∀ {m : List (String × β)},
    (keysOf m).Nodup → ∀ p : String × β, (p ∈ m ↔ dictGet? p.1 m = some p.2) := by
  intro m
  induction m with
  | nil =>
    intro _ p
    simp [dictGet?]
  | cons q rest ih =>
    intro h p
    have hnd := List.nodup_cons.mp (by simpa [keysOf_cons] using h)
    constructor
    · intro hp
      rcases List.mem_cons.mp hp with rfl | hrest
      · simp [dictGet?]
      · have hne : ¬ q.1 = p.1 := fun hh =>
          hnd.1 (hh ▸ List.mem_map_of_mem Prod.fst hrest)
        simp only [dictGet?]
        rw [if_neg hne]
        exact (ih hnd.2 p).mp hrest
    · intro hp
      simp only [dictGet?] at hp
      by_cases hq : q.1 = p.1
      · rw [if_pos hq] at hp
        have h2 : q.2 = p.2 := Option.some.inj hp
        have hqp : q = p := Prod.ext hq h2
        rw [← hqp]
        exact List.mem_cons_self _ _
      · rw [if_neg hq] at hp
        exact List.mem_cons_of_mem _ ((ih hnd.2 p).mpr hp)

theorem backRefOk_iff {t : TableState} {k : String} {cr : ColRef} :
    backRefOk t k cr = true ↔
      ∃ cs lst, dictGet? cr.column t.column_key = some cs ∧
        cs.indexes = some lst ∧ k ∈ lst := by
  unfold backRefOk
  cases h1 : dictGet? cr.column t.column_key with
  | none => simp
  | some cs =>
    cases h2 : cs.indexes with
    | none => simp [h2]
    | some lst => simp [h2]

theorem refOk_iff {t : TableState} {c i : String} :
    refOk t c i = true ↔
      ∃ ix, dictGet? i t.index_key = some ix ∧ ∃ cr ∈ ix.columns, cr.column = c := by
  unfold refOk
  cases h1 : dictGet? i t.index_key with
  | none => simp
  | some ix => simp

theorem mem_filter_bne {i key : String} {l : List String} :
    i ∈ l.filter (fun x => x != key) ↔ i ∈ l ∧ i ≠ key := by
  simp [List.mem_filter]

theorem stripRef_getD (key : String) (cs : ColRec) :
    (stripRef key cs).indexes.getD []
      = (cs.indexes.getD []).filter (fun x => x != key) := by
  unfold stripRef
  by_cases h : (cs.indexes.getD []).filter (fun x => x != key) = [] <;> simp [h]

theorem stripRef_indexes_of_ne_nil {key : String} {cs : ColRec}
    (h : (cs.indexes.getD []).filter (fun x => x != key) ≠ []) :
    (stripRef key cs).indexes
      = some ((cs.indexes.getD []).filter (fun x => x != key)) := by
  unfold stripRef
  simp [h]

theorem removeIndexStep_ok (key : String) (st : TableState) (cr : ColRef)
    {cs : ColRec} {lst : List String}
    (h1 : dictGet? cr.column st.column_key = some cs)
    (h2 : cs.indexes = some lst) :
    TableSpec.removeIndexStep key st cr =
      (none, { st with
        column_key := dictSet st.column_key cr.column (stripRef key cs) }) := by
  unfold TableSpec.removeIndexStep
  simp only [h1, h2]
  unfold stripRef
  rw [h2]
  rfl

theorem removeIndex_inner_ok (key : String) (cols : List ColRef) :
    ∀ st : TableState,
    (cols.map ColRef.column).Nodup →
    (∀ cr ∈ cols, backRefOk st key cr = true) →
    ∃ st', runSteps (TableSpec.removeIndexStep key) st cols = (none, st') ∧
      st'.table = st.table ∧
      st'.index_key = st.index_key ∧
      keysOf st'.column_key = keysOf st.column_key ∧
      (∀ c, (∀ cr ∈ cols, cr.column ≠ c) →
          dictGet? c st'.column_key = dictGet? c st.column_key) ∧
      (∀ c, (∃ cr ∈ cols, cr.column = c) →
          dictGet? c st'.column_key
            = (dictGet? c st.column_key).map (stripRef key)) := by
  induction cols with
  | nil =>
    intro st _ _
    refine ⟨st, rfl, rfl, rfl, rfl, fun c _ => rfl, ?_⟩
    rintro c ⟨cr, hcr, _⟩
    cases hcr
  | cons cr rest ih =>
    intro st hnodup hok
    obtain ⟨cs, lst, h1, h2, hkmem⟩ :=
      backRefOk_iff.mp (hok cr (List.mem_cons_self cr rest))
    have hstep := removeIndexStep_ok key st cr h1 h2
    have hnd : (∀ x ∈ rest, ¬ x.column = cr.column) ∧
        (rest.map ColRef.column).Nodup := by simpa using hnodup
    have hok' : ∀ cr2 ∈ rest,
        backRefOk { st with
            column_key := dictSet st.column_key cr.column (stripRef key cs) }
          key cr2 = true := by
      intro cr2 hcr2
      have hne : cr2.column ≠ cr.column := hnd.1 cr2 hcr2
      obtain ⟨cs2, lst2, g1, g2, gmem⟩ :=
        backRefOk_iff.mp (hok cr2 (List.mem_cons_of_mem _ hcr2))
      apply backRefOk_iff.mpr
      refine ⟨cs2, lst2, ?_, g2, gmem⟩
      show dictGet? cr2.column (dictSet st.column_key cr.column (stripRef key cs))
        = some cs2
      rw [dictGet?_dictSet_ne _ _ hne]
      exact g1
    obtain ⟨st', hrun, htab, hidx, hkeys, hunch, hstr⟩ := ih _ hnd.2 hok'
    refine ⟨st', ?_, ?_, ?_, ?_, ?_, ?_⟩
    · simp only [runSteps, hstep]
      exact hrun
    · rw [htab]
    · rw [hidx]
    · rw [hkeys]
      show keysOf (dictSet st.column_key cr.column (stripRef key cs))
        = keysOf st.column_key
      exact keysOf_dictSet_of_mem _ (by rw [dictMem_eq, h1]; rfl)
    · intro c hc
      have hcne : cr.column ≠ c := hc cr (List.mem_cons_self cr rest)
      rw [hunch c (fun cr2 hcr2 => hc cr2 (List.mem_cons_of_mem _ hcr2))]
      show dictGet? c (dictSet st.column_key cr.column (stripRef key cs))
        = dictGet? c st.column_key
      exact dictGet?_dictSet_ne _ _ (fun hh => hcne hh.symm)
    · intro c hc
      by_cases hceq : cr.column = c
      · subst hceq
        have hnotin : ∀ cr2 ∈ rest, cr2.column ≠ cr.column :=
          fun cr2 hcr2 => hnd.1 cr2 hcr2
        rw [hunch _ hnotin]
        show dictGet? cr.column (dictSet st.column_key cr.column (stripRef key cs))
          = (dictGet? cr.column st.column_key).map (stripRef key)
        rw [dictGet?_dictSet_self, h1]
        rfl
      · have hcrest : ∃ cr2 ∈ rest, cr2.column = c := by
          obtain ⟨cr2, hcr2, hcc⟩ := hc
          rcases List.mem_cons.mp hcr2 with rfl | hr
          · exact absurd hcc hceq
          · exact ⟨cr2, hr, hcc⟩
        rw [hstr c hcrest]
        have hsame : dictGet? c (dictSet st.column_key cr.column (stripRef key cs))
            = dictGet? c st.column_key :=
          dictGet?_dictSet_ne _ _ (fun hh => hceq hh.symm)
        show (dictGet? c (dictSet st.column_key cr.column (stripRef key cs))).map
            (stripRef key) = (dictGet? c st.column_key).map (stripRef key)
        rw [hsame]

theorem dictMem_congr_keys {β γ : Type} {m : List (String × β)}
    {m' : List (String × γ)} {k : String}
    (h : keysOf m = keysOf m') : dictMem k m = dictMem k m' := by
  cases hb : dictMem k m'
  · cases hb2 : dictMem k m
    · rfl
    · exfalso
      have h1 := dictMem_iff_mem_keys.mp hb2
      rw [h] at h1
      have h2 := dictMem_iff_mem_keys.mpr h1
      rw [hb] at h2
      cases h2
  · have h1 := dictMem_iff_mem_keys.mp hb
    rw [← h] at h1
    exact dictMem_iff_mem_keys.mpr h1

theorem remove_index_ok (t : TableState) (key : String) (ix : IxRec)
    (hcons : Consistent t)
    (hget : dictGet? key t.index_key = some ix) :
    ∃ t', TableSpec.remove_index t key = (none, t') ∧
      t'.table = t.table ∧
      t'.index_key = dictDel t.index_key key ∧
      keysOf t'.column_key = keysOf t.column_key ∧
      Consistent t' := by
  obtain ⟨hcn, hin, hcol, hidx⟩ := hcons
  have hmemq : (key, ix) ∈ t.index_key := dictGet?_mem hget
  obtain ⟨hcolsnd, hbr⟩ := hidx (key, ix) hmemq
  obtain ⟨st', hrun, htab, hik, hkeys, hunch, hstr⟩ :=
    removeIndex_inner_ok key ix.columns t hcolsnd hbr
  refine ⟨{ st' with index_key := dictDel st'.index_key key },
    ?_, htab, ?_, hkeys, ?_, ?_, ?_, ?_⟩
  · unfold TableSpec.remove_index
    simp only [hget, hrun]
  · show dictDel st'.index_key key = dictDel t.index_key key
    rw [hik]
  · show (keysOf st'.column_key).Nodup
    rw [hkeys]
    exact hcn
  · show (keysOf (dictDel st'.index_key key)).Nodup
    rw [hik, keysOf_dictDel]
    exact hin.filter _
  · -- column back-reference lists stay duplicate-free and sound
    intro p hp
    have hpnodup : (keysOf st'.column_key).Nodup := by rw [hkeys]; exact hcn
    have hpget : dictGet? p.1 st'.column_key = some p.2 :=
      (mem_iff_dictGet? hpnodup p).mp hp
    by_cases href : ∃ cr ∈ ix.columns, cr.column = p.1
    · have hm := hstr p.1 href
      rw [hpget] at hm
      cases hold : dictGet? p.1 t.column_key with
      | none => rw [hold] at hm; simp at hm
      | some cs =>
        rw [hold] at hm
        have hps : p.2 = stripRef key cs := by simpa using hm
        have hmemold : (p.1, cs) ∈ t.column_key := dictGet?_mem hold
        obtain ⟨hndold, hrefold⟩ := hcol (p.1, cs) hmemold
        constructor
        · rw [hps, stripRef_getD]
          exact hndold.filter _
        · intro i hi
          rw [hps, stripRef_getD] at hi
          obtain ⟨hilst, hine⟩ := mem_filter_bne.mp hi
          obtain ⟨ixi, hixi, hcrs⟩ := refOk_iff.mp (hrefold i hilst)
          apply refOk_iff.mpr
          refine ⟨ixi, ?_, hcrs⟩
          show dictGet? i (dictDel st'.index_key key) = some ixi
          rw [hik, dictGet?_dictDel_ne _ hine]
          exact hixi
    · have hnone : ∀ cr ∈ ix.columns, cr.column ≠ p.1 :=
        fun cr hcr hh => href ⟨cr, hcr, hh⟩
      have hm := hunch p.1 hnone
      rw [hpget] at hm
      have hmemold : (p.1, p.2) ∈ t.column_key := dictGet?_mem hm.symm
      obtain ⟨hndold, hrefold⟩ := hcol (p.1, p.2) hmemold
      refine ⟨hndold, ?_⟩
      intro i hi
      obtain ⟨ixi, hixi, hcrs⟩ := refOk_iff.mp (hrefold i hi)
      have hine : i ≠ key := by
        intro hh
        subst hh
        rw [hget] at hixi
        have hixeq : ixi = ix := (Option.some.inj hixi).symm
        subst hixeq
        exact href hcrs
      apply refOk_iff.mpr
      refine ⟨ixi, ?_, hcrs⟩
      show dictGet? i (dictDel st'.index_key key) = some ixi
      rw [hik, dictGet?_dictDel_ne _ hine]
      exact hixi
  · -- remaining indexes keep distinct, back-referenced columns
    intro q hq
    have hq2 : q ∈ dictDel t.index_key key := by
      rw [← hik]
      exact hq
    have hqmem : q ∈ t.index_key := List.mem_of_mem_filter hq2
    have hqne : q.1 ≠ key := by simpa using List.of_mem_filter hq2
    obtain ⟨hqnd, hqbr⟩ := hidx q hqmem
    refine ⟨hqnd, ?_⟩
    intro cr hcr
    obtain ⟨cs2, lst2, g1, g2, gmem⟩ := backRefOk_iff.mp (hqbr cr hcr)
    apply backRefOk_iff.mpr
    by_cases hrefd : ∃ cr0 ∈ ix.columns, cr0.column = cr.column
    · have hst := hstr cr.column hrefd
      rw [g1] at hst
      have hkeep : q.1 ∈ (cs2.indexes.getD []).filter (fun x => x != key) :=
        mem_filter_bne.mpr ⟨by simpa [g2] using gmem, hqne⟩
      have hnenil : (cs2.indexes.getD []).filter (fun x => x != key) ≠ [] :=
        List.ne_nil_of_mem hkeep
      refine ⟨stripRef key cs2,
        (cs2.indexes.getD []).filter (fun x => x != key), ?_,
        stripRef_indexes_of_ne_nil hnenil, hkeep⟩
      show dictGet? cr.column st'.column_key = some (stripRef key cs2)
      simpa using hst
    · have hno : ∀ cr0 ∈ ix.columns, cr0.column ≠ cr.column :=
        fun cr0 hcr0 hh => hrefd ⟨cr0, hcr0, hh⟩
      have hsame := hunch cr.column hno
      rw [g1] at hsame
      exact ⟨cs2, lst2, hsame, g2, gmem⟩

theorem remove_index_fold_ok (L : List String) :
    ∀ t : TableState, L.Nodup → Consistent t →
    (∀ i ∈ L, (dictGet? i t.index_key).isSome = true) →
    ∃ t', runSteps TableSpec.remove_index t L = (none, t') ∧
      t'.table = t.table ∧
      keysOf t'.column_key = keysOf t.column_key ∧
      (∀ i ∈ L, dictGet? i t'.index_key = none) ∧
      (∀ i, i ∉ L → dictGet? i t'.index_key = dictGet? i t.index_key) ∧
      Consistent t' := by
  induction L with
  | nil =>
    intro t _ hc _
    exact ⟨t, rfl, rfl, rfl, by simp, fun i _ => rfl, hc⟩
  | cons i0 rest ih =>
    intro t hnodup hcons hmem
    have h0 := hmem i0 (List.mem_cons_self i0 rest)
    cases hg : dictGet? i0 t.index_key with
    | none => rw [hg] at h0; simp at h0
    | some ix0 =>
      obtain ⟨t1, hstep, htab1, hik1, hkeys1, hcons1⟩ :=
        remove_index_ok t i0 ix0 hcons hg
      have hnd := List.nodup_cons.mp hnodup
      have hmem1 : ∀ i ∈ rest, (dictGet? i t1.index_key).isSome = true := by
        intro i hi
        have hne : i ≠ i0 := fun hh => hnd.1 (hh ▸ hi)
        rw [hik1, dictGet?_dictDel_ne _ hne]
        exact hmem i (List.mem_cons_of_mem _ hi)
      obtain ⟨t', hrun, htab, hkeys, hdel, hkeep, hcons'⟩ :=
        ih t1 hnd.2 hcons1 hmem1
      refine ⟨t', ?_, ?_, ?_, ?_, ?_, hcons'⟩
      · simp only [runSteps, hstep]
        exact hrun
      · rw [htab, htab1]
      · rw [hkeys, hkeys1]
      · intro i hi
        rcases List.mem_cons.mp hi with rfl | hirest
        · rw [hkeep i hnd.1, hik1, dictGet?_dictDel_self]
        · exact hdel i hirest
      · intro i hi
        have h1 : i ≠ i0 := fun hh => hi (hh ▸ List.mem_cons_self i0 rest)
        have h2 : i ∉ rest := fun hh => hi (List.mem_cons_of_mem _ hh)
        rw [hkeep i h2, hik1, dictGet?_dictDel_ne _ h1]

/-- Claim C4: on a consistent table, `remove_column` of a present column
first removes every index named in that column's back-reference list —
so a subsequent `get_index` on any of them fails with UnknownIndex — and
then deletes the column (the sorted views being recomputed from the
resulting dicts by construction), leaving every other column's presence
untouched; on an absent name it fails with UnknownColumn and leaves the
table unchanged. -/
theorem c4_remove_column_cascades (t : TableState) (name : String)
    (hcons : Consistent t) :
    (dictGet? name t.column_key = none →
      TableSpec.remove_column t name = (some (.unknownColumn name), t)) ∧
    (∀ entry, dictGet? name t.column_key = some entry →
      ∃ t', TableSpec.remove_column t name = (none, t') ∧
        dictGet? name t'.column_key = none ∧
        (∀ i ∈ entry.indexes.getD [], TableSpec.get_index t' i
            = .error (.unknownIndex i)) ∧
        (∀ k, k ≠ name → dictMem k t'.column_key = dictMem k t.column_key)) := by
  constructor
  · intro h
    unfold TableSpec.remove_column
    simp only [h]
  · intro entry hentry
    have hmem : (name, entry) ∈ t.column_key := dictGet?_mem hentry
    cases hL : entry.indexes with
    | none =>
      refine ⟨{ t with column_key := dictDel t.column_key name }, ?_, ?_, ?_, ?_⟩
      · unfold TableSpec.remove_column
        simp only [hentry, hL]
      · exact dictGet?_dictDel_self _ _
      · intro i hi
        simp at hi
      · intro k hk
        rw [dictMem_eq, dictMem_eq]
        show (dictGet? k (dictDel t.column_key name)).isSome
          = (dictGet? k t.column_key).isSome
        rw [dictGet?_dictDel_ne _ hk]
    | some L =>
      have h3 := hcons.2.2.1 (name, entry) hmem
      rw [hL] at h3
      simp only [Option.getD_some] at h3
      obtain ⟨hLnd, hLref⟩ := h3
      have hLmem : ∀ i ∈ L, (dictGet? i t.index_key).isSome = true := by
        intro i hi
        obtain ⟨ixi, hixi, _⟩ := refOk_iff.mp (hLref i hi)
        rw [hixi]
        rfl
      obtain ⟨t1, hrun, htab1, hkeys1, hdel1, hkeep1, hcons1⟩ :=
        remove_index_fold_ok L t hLnd hcons hLmem
      refine ⟨{ t1 with column_key := dictDel t1.column_key name }, ?_, ?_, ?_, ?_⟩
      · unfold TableSpec.remove_column
        simp only [hentry, hL, hrun]
      · exact dictGet?_dictDel_self _ _
      · intro i hi
        simp only [Option.getD_some] at hi
        unfold TableSpec.get_index
        have hnone : dictGet? i
            ({ t1 with column_key := dictDel t1.column_key name }).index_key
              = none := hdel1 i hi
        simp only [hnone]
      · intro k hk
        rw [dictMem_eq, dictMem_eq]
        show (dictGet? k (dictDel t1.column_key name)).isSome
          = (dictGet? k t.column_key).isSome
        rw [dictGet?_dictDel_ne _ hk, ← dictMem_eq, ← dictMem_eq]
        exact dictMem_congr_keys hkeys1

theorem c4_remove_column_cascades_witness :
    ∃ t', TableSpec.remove_column tblCons "a" = (none, t') ∧
      dictGet? "a" t'.column_key = none ∧
      (∀ i ∈ ({ aRec with indexes := some ["ix1"] } : ColRec).indexes.getD [],
        TableSpec.get_index t' i = .error (.unknownIndex i)) ∧
      (∀ k, k ≠ "a" → dictMem k t'.column_key = dictMem k tblCons.column_key) :=
  (c4_remove_column_cascades tblCons "a" (by decide)).2
    { aRec with indexes := some ["ix1"] } (by decide)

end FlaskMigrate
